import Mathlib

/-
  Verification of the execution-request lifecycle / completion-signaling engine
  specified in spec.md, and of the mt7603 MCU synchronous command channel
  (drivers/net/wireless/mediatek/mt76/mt7603/mcu.c).

  The engine implementation itself (i915_request.c, i915_sw_fence.c, dma_fence)
  is not part of the source tree here; only its selftests
  (drivers/gpu/drm/i915/selftests/i915_request.c) are.  The engine is therefore
  modelled from the specification as a labelled transition system: requests are
  records, executor actions are operations, and an execution is an arbitrary
  finite sequence of operations (an interleaving).
-/

namespace Engine

/-- Modelled from the spec: fence error codes (spec section 7, error taxonomy).
The i915 request/fence implementation is not under src/; only its selftests are. -/
inductive Err
  | aborted
  | cancelled
deriving DecidableEq

/-- Modelled from the spec: request lifecycle phases (spec section 3, Request
lifecycle: building, added/submitted, executing, completed). -/
inductive Phase
  | building
  | queued
  | executing
  | done
deriving DecidableEq

/-- Modelled from the spec: a Request (spec section 3): target Executor,
priority metadata, dependency fences it must await, lifecycle phase, its
completion fence (signaled flag plus error code), a count of effective signal
deliveries (the fence signals exactly once; `sigCount` records how many times a
signal actually fired), and whether `submit` was ever called on it. -/
structure Req where
  engine : Nat
  priority : Nat
  deps : List Nat
  phase : Phase
  signaled : Bool
  err : Option Err
  sigCount : Nat
  everSubmitted : Bool
deriving DecidableEq

/-- Modelled from the spec: global system state — the set of requests created so
far (identified by creation index), the next fresh identifier, and the set of
wedged executors. -/
structure Sys where
  reqs : Nat → Option Req
  nextId : Nat
  wedged : Nat → Bool

/-- Modelled from the spec: the initial state (no requests, no wedged executor). -/
def init : Sys := ⟨fun _ => none, 0, fun _ => false⟩

/-- Modelled from the spec: the operations that producers, the executor's
dispatch/completion path, and the wedge/hang-detection path may perform, in any
interleaving (spec sections 4.3-4.4, 5). -/
inductive Op
  | create (engine priority : Nat)
  | await_dependency (r dep : Nat)
  | submit (r : Nat)
  | start (r : Nat)
  | finish (r : Nat)
  | cancel (r : Nat)
  | wedge (e : Nat)
deriving DecidableEq

/-- Update request `i` in place (no effect if it does not exist). -/
def updReq (s : Sys) (i : Nat) (f : Req → Req) : Sys :=
  { s with reqs := fun j => if j = i then (s.reqs j).map f else s.reqs j }

/-- Modelled from the spec: `is_completed(request)` — non-blocking poll of the
request's completion fence (spec section 4.3).  The selftest at
src/drivers/gpu/drm/i915/selftests/i915_request.c:386-387 shows that a request
force-signaled by wedging also reports completed, so completion is the fence's
signaled flag regardless of the error code. -/
def is_completed (s : Sys) (i : Nat) : Bool :=
  match s.reqs i with
  | some r => r.signaled
  | none => false

/-- All dependency fences of `r` are signaled (spec section 4.4: a request is
eligible for execution once its dependencies signal). -/
def depsSignaled (s : Sys) (r : Req) : Bool :=
  r.deps.all (fun d => is_completed s d)

/-- Force-signal a fence with the Aborted error, exactly once (spec section 4.4
wedge policy; signaling an already-signaled fence is a no-op, spec section 4.1). -/
def abortSignal (r : Req) : Req :=
  if r.signaled then r
  else { r with signaled := true, err := some Err.aborted, sigCount := r.sigCount + 1 }

/-- Modelled from the spec: the transition function.  `create` allocates a fresh
building request; `await_dependency` adds a dependency fence (only while
building, spec section 4.3 InvalidState rule); `submit` moves building to
queued (submitting new work to a wedged executor is invalid, spec section 7
Aborted: the caller must reset the executor first); `start` is the executor
beginning execution of a queued request whose dependencies have all signaled;
`finish` is the executor completing an executing request, signaling its fence
exactly once; `cancel` (cancel_before_dispatch) removes a queued request from
the pending queue without signaling it; `wedge` marks an executor wedged and
force-signals every outstanding (queued or executing, unsignaled) fence on it
with Aborted. -/
def stepOp (s : Sys) (o : Op) : Sys :=
  match o with
  | .create e p =>
      { s with
        reqs := fun j =>
          if j = s.nextId then some ⟨e, p, [], Phase.building, false, none, 0, false⟩
          else s.reqs j,
        nextId := s.nextId + 1 }
  | .await_dependency i d =>
      updReq s i (fun r =>
        if r.phase = Phase.building then { r with deps := d :: r.deps } else r)
  | .submit i =>
      updReq s i (fun r =>
        if r.phase = Phase.building ∧ s.wedged r.engine = false then
          { r with phase := Phase.queued, everSubmitted := true }
        else r)
  | .start i =>
      updReq s i (fun r =>
        if r.phase = Phase.queued ∧ depsSignaled s r = true then
          { r with phase := Phase.executing }
        else r)
  | .finish i =>
      updReq s i (fun r =>
        if r.phase = Phase.executing then
          { r with phase := Phase.done, signaled := true,
                   sigCount := if r.signaled then r.sigCount else r.sigCount + 1 }
        else r)
  | .cancel i =>
      updReq s i (fun r =>
        if r.phase = Phase.queued then { r with phase := Phase.building } else r)
  | .wedge e =>
      { s with
        wedged := fun x => if x = e then true else s.wedged x,
        reqs := fun j =>
          match s.reqs j with
          | some r =>
              if r.engine = e ∧ (r.phase = Phase.queued ∨ r.phase = Phase.executing) then
                some (abortSignal r)
              else some r
          | none => none }

/-- Run a sequence of operations from a given state. -/
def runFrom (s : Sys) (ops : List Op) : Sys := ops.foldl stepOp s

/-- Modelled from the spec: an execution is an arbitrary finite interleaving of
operations starting from the empty initial state. -/
def run (ops : List Op) : Sys := runFrom init ops

/-- Result of a wait call (spec section 4.1). -/
inductive WRes
  | ready
  | timedOut
deriving DecidableEq

/-- The states a waiter observes during its wait window: the current state and
every state reached by the operations that execute before the timeout expires.
A timeout of 0 is the empty window suffix (only the current instant is seen). -/
def window (s : Sys) : List Op → List Sys
  | [] => [s]
  | o :: os => s :: window (stepOp s o) os

/-- Modelled from the spec: `wait(request, timeout)` (spec sections 4.1, 4.3):
returns Ready as soon as the completion fence is signaled at any instant of the
wait window, TimedOut otherwise.  `during = []` is the pure poll (timeout 0). -/
def wait (s : Sys) (during : List Op) (i : Nat) : WRes :=
  if (window s during).any (fun t => is_completed t i) then WRes.ready else WRes.timedOut

/-- Modelled from the spec: `cancel_before_dispatch(request)` returns true
exactly when the request is still in the pending queue, i.e. the executor has
not begun executing it (spec section 4.3). -/
def cancel_before_dispatch (s : Sys) (i : Nat) : Bool :=
  match s.reqs i with
  | some r => if r.phase = Phase.queued then true else false
  | none => false

/-- The phase of request `i`, if it exists. -/
def phase_of (s : Sys) (i : Nat) : Option Phase := (s.reqs i).map Req.phase

/-- The fence error of request `i` (none if the request does not exist). -/
def err_of (s : Sys) (i : Nat) : Option Err :=
  match s.reqs i with
  | some r => r.err
  | none => none

/-- The dependency list of request `i`. -/
def deps_of (s : Sys) (i : Nat) : List Nat :=
  match s.reqs i with
  | some r => r.deps
  | none => []

/-- The number of effective fence signal deliveries for request `i`. -/
def sig_count (s : Sys) (i : Nat) : Nat :=
  match s.reqs i with
  | some r => r.sigCount
  | none => 0

/-- The priority of request `i`. -/
def prio_of (s : Sys) (i : Nat) : Nat :=
  match s.reqs i with
  | some r => r.priority
  | none => 0

/-- Whether the executor has begun executing request `i` (it is executing or
has finished executing). -/
def execution_started (s : Sys) (i : Nat) : Bool :=
  match s.reqs i with
  | some r => if r.phase = Phase.executing ∨ r.phase = Phase.done then true else false
  | none => false

/-- A trace without any wedge transition. -/
def no_wedge (ops : List Op) : Bool :=
  ops.all (fun o => match o with | .wedge _ => false | _ => true)

/-! Unfolding equations for `stepOp`, one per operation. -/

@[simp] theorem create_reqs (s : Sys) (e p j : Nat) :
    (stepOp s (Op.create e p)).reqs j =
      (if j = s.nextId then some ⟨e, p, [], Phase.building, false, none, 0, false⟩
       else s.reqs j) := rfl

@[simp] theorem create_nextId (s : Sys) (e p : Nat) :
    (stepOp s (Op.create e p)).nextId = s.nextId + 1 := rfl

@[simp] theorem create_wedged (s : Sys) (e p : Nat) :
    (stepOp s (Op.create e p)).wedged = s.wedged := rfl

@[simp] theorem updReq_reqs (s : Sys) (i : Nat) (f : Req → Req) (j : Nat) :
    (updReq s i f).reqs j = (if j = i then (s.reqs j).map f else s.reqs j) := rfl

@[simp] theorem updReq_nextId (s : Sys) (i : Nat) (f : Req → Req) :
    (updReq s i f).nextId = s.nextId := rfl

@[simp] theorem updReq_wedged (s : Sys) (i : Nat) (f : Req → Req) :
    (updReq s i f).wedged = s.wedged := rfl

theorem await_def (s : Sys) (i d : Nat) :
    stepOp s (Op.await_dependency i d) =
      updReq s i (fun r =>
        if r.phase = Phase.building then { r with deps := d :: r.deps } else r) := rfl

theorem submit_def (s : Sys) (i : Nat) :
    stepOp s (Op.submit i) =
      updReq s i (fun r =>
        if r.phase = Phase.building ∧ s.wedged r.engine = false then
          { r with phase := Phase.queued, everSubmitted := true }
        else r) := rfl

theorem start_def (s : Sys) (i : Nat) :
    stepOp s (Op.start i) =
      updReq s i (fun r =>
        if r.phase = Phase.queued ∧ depsSignaled s r = true then
          { r with phase := Phase.executing }
        else r) := rfl

theorem finish_def (s : Sys) (i : Nat) :
    stepOp s (Op.finish i) =
      updReq s i (fun r =>
        if r.phase = Phase.executing then
          { r with phase := Phase.done, signaled := true,
                   sigCount := if r.signaled then r.sigCount else r.sigCount + 1 }
        else r) := rfl

theorem cancel_def (s : Sys) (i : Nat) :
    stepOp s (Op.cancel i) =
      updReq s i (fun r =>
        if r.phase = Phase.queued then { r with phase := Phase.building } else r) := rfl

@[simp] theorem wedge_reqs (s : Sys) (e j : Nat) :
    (stepOp s (Op.wedge e)).reqs j =
      (match s.reqs j with
       | some r =>
           if r.engine = e ∧ (r.phase = Phase.queued ∨ r.phase = Phase.executing) then
             some (abortSignal r)
           else some r
       | none => none) := rfl

@[simp] theorem wedge_nextId (s : Sys) (e : Nat) :
    (stepOp s (Op.wedge e)).nextId = s.nextId := rfl

@[simp] theorem wedge_wedged (s : Sys) (e x : Nat) :
    (stepOp s (Op.wedge e)).wedged x = (if x = e then true else s.wedged x) := rfl

/-! The global state invariant: it holds in the initial state and is preserved
by every operation, hence holds in every reachable state. -/

/-- Identifiers at or above `nextId` are unallocated. -/
def WfIds (s : Sys) : Prop := ∀ j, s.nextId ≤ j → s.reqs j = none

/-- Modelled from the spec: the per-request invariants (spec sections 3-4):
the fence signals exactly once; a signaled fence means the work finished
(phase done) or the request was aborted by a wedge; a finished request is
signaled; an executing or finished request had all its dependencies signaled;
on a wedged executor every submitted-but-unfinished request is signaled; an
unsubmitted request is still building and unsignaled. -/
structure ReqOk (s : Sys) (r : Req) : Prop where
  sig_once : r.sigCount = (if r.signaled then 1 else 0)
  sig_src : r.signaled = true → r.phase = Phase.done ∨ r.err = some Err.aborted
  done_sig : r.phase = Phase.done → r.signaled = true
  deps_ok : (r.phase = Phase.executing ∨ r.phase = Phase.done) → depsSignaled s r = true
  wedged_sig : s.wedged r.engine = true →
    (r.phase = Phase.queued ∨ r.phase = Phase.executing) → r.signaled = true
  unsub : r.everSubmitted = false → r.phase = Phase.building ∧ r.signaled = false

/-- The system invariant. -/
def Inv (s : Sys) : Prop := WfIds s ∧ ∀ i r, s.reqs i = some r → ReqOk s r

theorem wfIds_init : WfIds init := fun _ _ => rfl

theorem inv_init : Inv init := ⟨wfIds_init, fun _ _ h => Option.noConfusion h⟩

theorem wfIds_step (s : Sys) (o : Op) (h : WfIds s) : WfIds (stepOp s o) := by
  cases o with
  | create e p =>
      intro j hj
      simp only [create_nextId] at hj
      have h1 : j ≠ s.nextId := by omega
      simp [h1, h j (by omega)]
  | await_dependency i d => intro j hj; simp [await_def, h j hj]
  | submit i => intro j hj; simp [submit_def, h j hj]
  | start i => intro j hj; simp [start_def, h j hj]
  | finish i => intro j hj; simp [finish_def, h j hj]
  | cancel i => intro j hj; simp [cancel_def, h j hj]
  | wedge e => intro j hj; simp [h j hj]

/-- A signaled completion fence stays signaled: no operation un-signals. -/
theorem is_completed_mono (s : Sys) (o : Op) (d : Nat) (hwf : WfIds s)
    (h : is_completed s d = true) : is_completed (stepOp s o) d = true := by
  cases hr : s.reqs d with
  | none => simp [is_completed, hr] at h
  | some q =>
      simp only [is_completed, hr] at h
      have hd : d < s.nextId := by
        by_contra hc
        have := hwf d (by omega)
        rw [this] at hr; exact Option.noConfusion hr
      cases o with
      | create e p =>
          have h1 : d ≠ s.nextId := by omega
          simp [is_completed, h1, hr, h]
      | await_dependency i dep =>
          by_cases hdi : d = i
          · subst hdi; simp [is_completed, await_def, hr]; split <;> simp [h]
          · simp [is_completed, await_def, hdi, hr, h]
      | submit i =>
          by_cases hdi : d = i
          · subst hdi; simp [is_completed, submit_def, hr]; split <;> simp [h]
          · simp [is_completed, submit_def, hdi, hr, h]
      | start i =>
          by_cases hdi : d = i
          · subst hdi; simp [is_completed, start_def, hr]; split <;> simp [h]
          · simp [is_completed, start_def, hdi, hr, h]
      | finish i =>
          by_cases hdi : d = i
          · subst hdi; simp [is_completed, finish_def, hr]; split <;> simp [h]
          · simp [is_completed, finish_def, hdi, hr, h]
      | cancel i =>
          by_cases hdi : d = i
          · subst hdi; simp [is_completed, cancel_def, hr]; split <;> simp [h]
          · simp [is_completed, cancel_def, hdi, hr, h]
      | wedge e =>
          by_cases hc : q.engine = e ∧ (q.phase = Phase.queued ∨ q.phase = Phase.executing)
          · simp [is_completed, hr, hc, abortSignal, h]
          · simp [is_completed, hr, hc, h]

/-- Dependencies that are all signaled stay all signaled. -/
theorem depsSignaled_mono (s : Sys) (o : Op) (r : Req) (hwf : WfIds s)
    (h : depsSignaled s r = true) : depsSignaled (stepOp s o) r = true := by
  unfold depsSignaled at h ⊢
  rw [List.all_eq_true] at h ⊢
  intro d hd
  exact is_completed_mono s o d hwf (h d hd)

/-- For an operation that does not change the wedged set, `ReqOk` carries over
to a request whose record is unchanged. -/
theorem reqOk_mono (s : Sys) (o : Op) (r : Req) (hwf : WfIds s)
    (hw : (stepOp s o).wedged = s.wedged) (h : ReqOk s r) : ReqOk (stepOp s o) r :=
  ⟨h.sig_once, h.sig_src, h.done_sig,
   fun hp => depsSignaled_mono s o r hwf (h.deps_ok hp),
   fun hwe => h.wedged_sig (by rw [hw] at hwe; exact hwe),
   h.unsub⟩

/-- The system invariant is preserved by every operation. -/
theorem inv_step (s : Sys) (o : Op) (h : Inv s) : Inv (stepOp s o) := by
  obtain ⟨hwf, hreq⟩ := h
  refine ⟨wfIds_step s o hwf, ?_⟩
  intro i r hr
  cases o with
  | create e p =>
      by_cases hi : i = s.nextId
      · subst hi
        rw [create_reqs, if_pos rfl] at hr
        cases hr
        refine ⟨rfl, ?_, ?_, ?_, ?_, ?_⟩
        · intro hs; cases hs
        · intro hd; cases hd
        · intro hp; rcases hp with hp | hp <;> cases hp
        · intro _ hp; rcases hp with hp | hp <;> cases hp
        · intro _; exact ⟨rfl, rfl⟩
      · simp only [create_reqs, if_neg hi] at hr
        exact reqOk_mono s (.create e p) r hwf rfl (hreq i r hr)
  | await_dependency i₀ d =>
      by_cases hi : i = i₀
      · subst hi
        rw [await_def, updReq_reqs, if_pos rfl] at hr
        cases hq : s.reqs i with
        | none => rw [hq] at hr; cases hr
        | some q =>
            rw [hq] at hr
            simp only [Option.map_some', Option.some.injEq] at hr
            obtain ⟨s1, s2, s3, s4, s5, s6⟩ := hreq i q hq
            by_cases hb : q.phase = Phase.building
            · rw [if_pos hb] at hr; subst hr
              refine ⟨s1, ?_, ?_, ?_, ?_, ?_⟩
              · intro hs; rcases s2 hs with h' | h'
                · rw [hb] at h'; cases h'
                · exact Or.inr h'
              · intro hd
                have : q.phase = Phase.done := hd
                rw [hb] at this; cases this
              · intro hp
                have : q.phase = Phase.executing ∨ q.phase = Phase.done := hp
                rcases this with h' | h' <;> (rw [hb] at h'; cases h')
              · intro _ hp
                have : q.phase = Phase.queued ∨ q.phase = Phase.executing := hp
                rcases this with h' | h' <;> (rw [hb] at h'; cases h')
              · intro he; exact ⟨s6 he |>.1, s6 he |>.2⟩
            · rw [if_neg hb] at hr; subst hr
              exact reqOk_mono s (.await_dependency i d) q hwf rfl (hreq i q hq)
      · rw [await_def, updReq_reqs, if_neg hi] at hr
        exact reqOk_mono s (.await_dependency i₀ d) r hwf rfl (hreq i r hr)
  | submit i₀ =>
      by_cases hi : i = i₀
      · subst hi
        rw [submit_def, updReq_reqs, if_pos rfl] at hr
        cases hq : s.reqs i with
        | none => rw [hq] at hr; cases hr
        | some q =>
            rw [hq] at hr
            simp only [Option.map_some', Option.some.injEq] at hr
            obtain ⟨s1, s2, s3, s4, s5, s6⟩ := hreq i q hq
            by_cases hb : q.phase = Phase.building ∧ s.wedged q.engine = false
            · rw [if_pos hb] at hr; subst hr
              refine ⟨s1, ?_, ?_, ?_, ?_, ?_⟩
              · intro hs; rcases s2 hs with h' | h'
                · rw [hb.1] at h'; cases h'
                · exact Or.inr h'
              · intro hd; cases hd
              · intro hp; rcases hp with hp | hp <;> cases hp
              · intro hw' _
                rw [submit_def, updReq_wedged] at hw'
                have : s.wedged q.engine = true := hw'
                rw [hb.2] at this; cases this
              · intro he; cases he
            · rw [if_neg hb] at hr; subst hr
              exact reqOk_mono s (.submit i) q hwf rfl (hreq i q hq)
      · rw [submit_def, updReq_reqs, if_neg hi] at hr
        exact reqOk_mono s (.submit i₀) r hwf rfl (hreq i r hr)
  | start i₀ =>
      by_cases hi : i = i₀
      · subst hi
        rw [start_def, updReq_reqs, if_pos rfl] at hr
        cases hq : s.reqs i with
        | none => rw [hq] at hr; cases hr
        | some q =>
            rw [hq] at hr
            simp only [Option.map_some', Option.some.injEq] at hr
            obtain ⟨s1, s2, s3, s4, s5, s6⟩ := hreq i q hq
            by_cases hb : q.phase = Phase.queued ∧ depsSignaled s q = true
            · rw [if_pos hb] at hr; subst hr
              refine ⟨s1, ?_, ?_, ?_, ?_, ?_⟩
              · intro hs; rcases s2 hs with h' | h'
                · rw [hb.1] at h'; cases h'
                · exact Or.inr h'
              · intro hd; cases hd
              · intro _
                exact depsSignaled_mono s (.start i) _ hwf hb.2
              · intro hw' _
                rw [start_def, updReq_wedged] at hw'
                exact s5 hw' (Or.inl hb.1)
              · intro he
                have := (s6 he).1
                rw [hb.1] at this; cases this
            · rw [if_neg hb] at hr; subst hr
              exact reqOk_mono s (.start i) q hwf rfl (hreq i q hq)
      · rw [start_def, updReq_reqs, if_neg hi] at hr
        exact reqOk_mono s (.start i₀) r hwf rfl (hreq i r hr)
  | finish i₀ =>
      by_cases hi : i = i₀
      · subst hi
        rw [finish_def, updReq_reqs, if_pos rfl] at hr
        cases hq : s.reqs i with
        | none => rw [hq] at hr; cases hr
        | some q =>
            rw [hq] at hr
            simp only [Option.map_some', Option.some.injEq] at hr
            obtain ⟨s1, s2, s3, s4, s5, s6⟩ := hreq i q hq
            by_cases hb : q.phase = Phase.executing
            · rw [if_pos hb] at hr; subst hr
              refine ⟨?_, ?_, ?_, ?_, ?_, ?_⟩
              · show (if q.signaled then q.sigCount else q.sigCount + 1) = 1
                by_cases hsig : q.signaled
                · rw [if_pos hsig]; rw [s1, if_pos hsig]
                · rw [if_neg hsig]
                  have : q.signaled = false := Bool.not_eq_true _ |>.mp hsig
                  rw [s1, this]; rfl
              · intro _; exact Or.inl rfl
              · intro _; rfl
              · intro _
                exact depsSignaled_mono s (.finish i) _ hwf (s4 (Or.inl hb))
              · intro _ _; rfl
              · intro he
                have := (s6 he).1
                rw [hb] at this; cases this
            · rw [if_neg hb] at hr; subst hr
              exact reqOk_mono s (.finish i) q hwf rfl (hreq i q hq)
      · rw [finish_def, updReq_reqs, if_neg hi] at hr
        exact reqOk_mono s (.finish i₀) r hwf rfl (hreq i r hr)
  | cancel i₀ =>
      by_cases hi : i = i₀
      · subst hi
        rw [cancel_def, updReq_reqs, if_pos rfl] at hr
        cases hq : s.reqs i with
        | none => rw [hq] at hr; cases hr
        | some q =>
            rw [hq] at hr
            simp only [Option.map_some', Option.some.injEq] at hr
            obtain ⟨s1, s2, s3, s4, s5, s6⟩ := hreq i q hq
            by_cases hb : q.phase = Phase.queued
            · rw [if_pos hb] at hr; subst hr
              refine ⟨s1, ?_, ?_, ?_, ?_, ?_⟩
              · intro hs; rcases s2 hs with h' | h'
                · rw [hb] at h'; cases h'
                · exact Or.inr h'
              · intro hd; cases hd
              · intro hp; rcases hp with hp | hp <;> cases hp
              · intro _ hp; rcases hp with hp | hp <;> cases hp
              · intro he
                have := (s6 he).1
                rw [hb] at this; cases this
            · rw [if_neg hb] at hr; subst hr
              exact reqOk_mono s (.cancel i) q hwf rfl (hreq i q hq)
      · rw [cancel_def, updReq_reqs, if_neg hi] at hr
        exact reqOk_mono s (.cancel i₀) r hwf rfl (hreq i r hr)
  | wedge e =>
      cases hq : s.reqs i with
      | none => simp only [wedge_reqs, hq] at hr; cases hr
      | some q =>
          simp only [wedge_reqs, hq] at hr
          obtain ⟨s1, s2, s3, s4, s5, s6⟩ := hreq i q hq
          by_cases hc : q.engine = e ∧ (q.phase = Phase.queued ∨ q.phase = Phase.executing)
          · rw [if_pos hc] at hr
            simp only [Option.some.injEq] at hr
            subst hr
            by_cases hsig : q.signaled
            · have habs : abortSignal q = q := by simp [abortSignal, hsig]
              rw [habs]
              refine ⟨s1, s2, s3, ?_, ?_, s6⟩
              · intro hp; exact depsSignaled_mono s (.wedge e) q hwf (s4 hp)
              · intro _ _; exact hsig
            · have hsig' : q.signaled = false := Bool.not_eq_true _ |>.mp hsig
              have habs : abortSignal q =
                  { q with signaled := true, err := some Err.aborted,
                           sigCount := q.sigCount + 1 } := by
                simp [abortSignal, hsig']
              rw [habs]
              refine ⟨?_, ?_, ?_, ?_, ?_, ?_⟩
              · show q.sigCount + 1 = 1
                rw [s1, hsig']; rfl
              · intro _; exact Or.inr rfl
              · intro _; rfl
              · intro hp
                have hp' : q.phase = Phase.executing ∨ q.phase = Phase.done := hp
                exact depsSignaled_mono s (.wedge e) _ hwf (s4 hp')
              · intro _ _; rfl
              · intro he
                have := (s6 he).1
                rcases hc.2 with h' | h' <;> (rw [this] at h'; cases h')
          · rw [if_neg hc] at hr
            simp only [Option.some.injEq] at hr
            subst hr
            refine ⟨s1, s2, s3, ?_, ?_, s6⟩
            · intro hp; exact depsSignaled_mono s (.wedge e) q hwf (s4 hp)
            · intro hw' hp
              rw [wedge_wedged] at hw'
              by_cases hqe : q.engine = e
              · exact absurd ⟨hqe, hp⟩ hc
              · rw [if_neg hqe] at hw'
                exact s5 hw' hp

/-- The system invariant holds after any operation sequence from an invariant
state, hence in every reachable state. -/
theorem inv_runFrom (s : Sys) (ops : List Op) (h : Inv s) : Inv (runFrom s ops) := by
  induction ops generalizing s with
  | nil => exact h
  | cons o os ih => exact ih (stepOp s o) (inv_step s o h)

/-- Every reachable state satisfies the system invariant. -/
theorem inv_run (ops : List Op) : Inv (run ops) := inv_runFrom init ops inv_init

/-- Request `i` has never been submitted: it is still building, unsignaled. -/
def Unsub (s : Sys) (i : Nat) : Prop :=
  ∀ r, s.reqs i = some r →
    r.everSubmitted = false ∧ r.signaled = false ∧ r.phase = Phase.building

theorem unsub_init (i : Nat) : Unsub init i := fun _ hr => Option.noConfusion hr

/-- Any operation other than submitting request `i` leaves it unsubmitted,
building and unsignaled. -/
theorem unsub_step (s : Sys) (o : Op) (i : Nat) (h : Unsub s i) (ho : o ≠ Op.submit i) :
    Unsub (stepOp s o) i := by
  intro r hr
  cases o with
  | create e p =>
      by_cases hi : i = s.nextId
      · subst hi; rw [create_reqs, if_pos rfl] at hr; cases hr; exact ⟨rfl, rfl, rfl⟩
      · rw [create_reqs, if_neg hi] at hr; exact h r hr
  | await_dependency i₀ d =>
      by_cases hi : i = i₀
      · subst hi
        rw [await_def, updReq_reqs, if_pos rfl] at hr
        cases hq : s.reqs i with
        | none => rw [hq] at hr; cases hr
        | some q =>
            rw [hq] at hr; simp only [Option.map_some', Option.some.injEq] at hr
            obtain ⟨h1, h2, h3⟩ := h q hq
            rw [if_pos h3] at hr; subst hr
            exact ⟨h1, h2, h3⟩
      · rw [await_def, updReq_reqs, if_neg hi] at hr; exact h r hr
  | submit i₀ =>
      have hi : i ≠ i₀ := fun hh => ho (by rw [hh])
      rw [submit_def, updReq_reqs, if_neg hi] at hr; exact h r hr
  | start i₀ =>
      by_cases hi : i = i₀
      · subst hi
        rw [start_def, updReq_reqs, if_pos rfl] at hr
        cases hq : s.reqs i with
        | none => rw [hq] at hr; cases hr
        | some q =>
            rw [hq] at hr; simp only [Option.map_some', Option.some.injEq] at hr
            obtain ⟨h1, h2, h3⟩ := h q hq
            have hg : ¬(q.phase = Phase.queued ∧ depsSignaled s q = true) := by
              intro hc; rw [h3] at hc; cases hc.1
            rw [if_neg hg] at hr; subst hr
            exact ⟨h1, h2, h3⟩
      · rw [start_def, updReq_reqs, if_neg hi] at hr; exact h r hr
  | finish i₀ =>
      by_cases hi : i = i₀
      · subst hi
        rw [finish_def, updReq_reqs, if_pos rfl] at hr
        cases hq : s.reqs i with
        | none => rw [hq] at hr; cases hr
        | some q =>
            rw [hq] at hr; simp only [Option.map_some', Option.some.injEq] at hr
            obtain ⟨h1, h2, h3⟩ := h q hq
            have hg : ¬(q.phase = Phase.executing) := by
              intro hc; rw [h3] at hc; cases hc
            rw [if_neg hg] at hr; subst hr
            exact ⟨h1, h2, h3⟩
      · rw [finish_def, updReq_reqs, if_neg hi] at hr; exact h r hr
  | cancel i₀ =>
      by_cases hi : i = i₀
      · subst hi
        rw [cancel_def, updReq_reqs, if_pos rfl] at hr
        cases hq : s.reqs i with
        | none => rw [hq] at hr; cases hr
        | some q =>
            rw [hq] at hr; simp only [Option.map_some', Option.some.injEq] at hr
            obtain ⟨h1, h2, h3⟩ := h q hq
            have hg : ¬(q.phase = Phase.queued) := by
              intro hc; rw [h3] at hc; cases hc
            rw [if_neg hg] at hr; subst hr
            exact ⟨h1, h2, h3⟩
      · rw [cancel_def, updReq_reqs, if_neg hi] at hr; exact h r hr
  | wedge e =>
      cases hq : s.reqs i with
      | none => simp only [wedge_reqs, hq] at hr; cases hr
      | some q =>
          simp only [wedge_reqs, hq] at hr
          obtain ⟨h1, h2, h3⟩ := h q hq
          have hg : ¬(q.engine = e ∧ (q.phase = Phase.queued ∨ q.phase = Phase.executing)) := by
            intro hc
            rcases hc.2 with hc' | hc' <;> (rw [h3] at hc'; cases hc')
          rw [if_neg hg] at hr; simp only [Option.some.injEq] at hr; subst hr
          exact ⟨h1, h2, h3⟩

/-- A request stays unsubmitted along any trace that never submits it. -/
theorem unsub_runFrom (s : Sys) (ops : List Op) (i : Nat) (h : Unsub s i)
    (hs : Op.submit i ∉ ops) : Unsub (runFrom s ops) i := by
  induction ops generalizing s with
  | nil => exact h
  | cons o os ih =>
      have h1 : o ≠ Op.submit i := fun he => hs (he ▸ List.mem_cons_self o os)
      have h2 : Op.submit i ∉ os := fun hm => hs (List.mem_cons_of_mem o hm)
      exact ih (stepOp s o) (unsub_step s o i h h1) h2

theorem unsub_run (ops : List Op) (i : Nat) (hs : Op.submit i ∉ ops) :
    Unsub (run ops) i := unsub_runFrom init ops i (unsub_init i) hs

/-- Request `i` has not reached phase done. -/
def NotDone (s : Sys) (i : Nat) : Prop :=
  ∀ r, s.reqs i = some r → r.phase ≠ Phase.done

theorem notDone_init (i : Nat) : NotDone init i := fun _ hr => Option.noConfusion hr

/-- Only a finish of request `i` can move it to phase done. -/
theorem notDone_step (s : Sys) (o : Op) (i : Nat) (h : NotDone s i) (ho : o ≠ Op.finish i) :
    NotDone (stepOp s o) i := by
  intro r hr
  cases o with
  | create e p =>
      by_cases hi : i = s.nextId
      · subst hi; rw [create_reqs, if_pos rfl] at hr; cases hr; intro hc; cases hc
      · rw [create_reqs, if_neg hi] at hr; exact h r hr
  | await_dependency i₀ d =>
      by_cases hi : i = i₀
      · subst hi
        rw [await_def, updReq_reqs, if_pos rfl] at hr
        cases hq : s.reqs i with
        | none => rw [hq] at hr; cases hr
        | some q =>
            rw [hq] at hr; simp only [Option.map_some', Option.some.injEq] at hr
            by_cases hb : q.phase = Phase.building
            · rw [if_pos hb] at hr; subst hr
              intro hc; rw [hb] at hc; cases hc
            · rw [if_neg hb] at hr; subst hr; exact h q hq
      · rw [await_def, updReq_reqs, if_neg hi] at hr; exact h r hr
  | submit i₀ =>
      by_cases hi : i = i₀
      · subst hi
        rw [submit_def, updReq_reqs, if_pos rfl] at hr
        cases hq : s.reqs i with
        | none => rw [hq] at hr; cases hr
        | some q =>
            rw [hq] at hr; simp only [Option.map_some', Option.some.injEq] at hr
            by_cases hb : q.phase = Phase.building ∧ s.wedged q.engine = false
            · rw [if_pos hb] at hr; subst hr; intro hc; cases hc
            · rw [if_neg hb] at hr; subst hr; exact h q hq
      · rw [submit_def, updReq_reqs, if_neg hi] at hr; exact h r hr
  | start i₀ =>
      by_cases hi : i = i₀
      · subst hi
        rw [start_def, updReq_reqs, if_pos rfl] at hr
        cases hq : s.reqs i with
        | none => rw [hq] at hr; cases hr
        | some q =>
            rw [hq] at hr; simp only [Option.map_some', Option.some.injEq] at hr
            by_cases hb : q.phase = Phase.queued ∧ depsSignaled s q = true
            · rw [if_pos hb] at hr; subst hr; intro hc; cases hc
            · rw [if_neg hb] at hr; subst hr; exact h q hq
      · rw [start_def, updReq_reqs, if_neg hi] at hr; exact h r hr
  | finish i₀ =>
      have hi : i ≠ i₀ := fun hh => ho (by rw [hh])
      rw [finish_def, updReq_reqs, if_neg hi] at hr; exact h r hr
  | cancel i₀ =>
      by_cases hi : i = i₀
      · subst hi
        rw [cancel_def, updReq_reqs, if_pos rfl] at hr
        cases hq : s.reqs i with
        | none => rw [hq] at hr; cases hr
        | some q =>
            rw [hq] at hr; simp only [Option.map_some', Option.some.injEq] at hr
            by_cases hb : q.phase = Phase.queued
            · rw [if_pos hb] at hr; subst hr; intro hc; cases hc
            · rw [if_neg hb] at hr; subst hr; exact h q hq
      · rw [cancel_def, updReq_reqs, if_neg hi] at hr; exact h r hr
  | wedge e =>
      cases hq : s.reqs i with
      | none => simp only [wedge_reqs, hq] at hr; cases hr
      | some q =>
          simp only [wedge_reqs, hq] at hr
          by_cases hc : q.engine = e ∧ (q.phase = Phase.queued ∨ q.phase = Phase.executing)
          · rw [if_pos hc] at hr; simp only [Option.some.injEq] at hr; subst hr
            intro hd
            have hphase : q.phase = Phase.done := by
              by_cases hsig : q.signaled
              · have : abortSignal q = q := by simp [abortSignal, hsig]
                rw [this] at hd; exact hd
              · have hsig' : q.signaled = false := Bool.not_eq_true _ |>.mp hsig
                have : abortSignal q =
                    { q with signaled := true, err := some Err.aborted,
                             sigCount := q.sigCount + 1 } := by simp [abortSignal, hsig']
                rw [this] at hd; exact hd
            exact h q hq hphase
          · rw [if_neg hc] at hr; simp only [Option.some.injEq] at hr; subst hr
            exact h q hq

/-- A request never finished by the executor never reaches phase done. -/
theorem notDone_runFrom (s : Sys) (ops : List Op) (i : Nat) (h : NotDone s i)
    (hs : Op.finish i ∉ ops) : NotDone (runFrom s ops) i := by
  induction ops generalizing s with
  | nil => exact h
  | cons o os ih =>
      have h1 : o ≠ Op.finish i := fun he => hs (he ▸ List.mem_cons_self o os)
      have h2 : Op.finish i ∉ os := fun hm => hs (List.mem_cons_of_mem o hm)
      exact ih (stepOp s o) (notDone_step s o i h h1) h2

theorem notDone_run (ops : List Op) (i : Nat) (hs : Op.finish i ∉ ops) :
    NotDone (run ops) i := notDone_runFrom init ops i (notDone_init i) hs

/-- In a wedge-free system every signaled request has actually finished. -/
def SigImpliesDone (s : Sys) : Prop :=
  ∀ i r, s.reqs i = some r → r.signaled = true → r.phase = Phase.done

theorem sigImpliesDone_init : SigImpliesDone init := fun _ _ hr => Option.noConfusion hr

/-- Any non-wedge operation preserves the property that a signaled request has
finished executing. -/
theorem sigImpliesDone_step (s : Sys) (o : Op) (h : SigImpliesDone s)
    (ho : ∀ e, o ≠ Op.wedge e) : SigImpliesDone (stepOp s o) := by
  intro i r hr hsig
  cases o with
  | create e p =>
      by_cases hi : i = s.nextId
      · subst hi; rw [create_reqs, if_pos rfl] at hr; cases hr; cases hsig
      · rw [create_reqs, if_neg hi] at hr; exact h i r hr hsig
  | await_dependency i₀ d =>
      by_cases hi : i = i₀
      · subst hi
        rw [await_def, updReq_reqs, if_pos rfl] at hr
        cases hq : s.reqs i with
        | none => rw [hq] at hr; cases hr
        | some q =>
            rw [hq] at hr; simp only [Option.map_some', Option.some.injEq] at hr
            by_cases hb : q.phase = Phase.building
            · rw [if_pos hb] at hr; subst hr
              have : q.phase = Phase.done := h i q hq hsig
              rw [hb] at this; cases this
            · rw [if_neg hb] at hr; subst hr; exact h i q hq hsig
      · rw [await_def, updReq_reqs, if_neg hi] at hr; exact h i r hr hsig
  | submit i₀ =>
      by_cases hi : i = i₀
      · subst hi
        rw [submit_def, updReq_reqs, if_pos rfl] at hr
        cases hq : s.reqs i with
        | none => rw [hq] at hr; cases hr
        | some q =>
            rw [hq] at hr; simp only [Option.map_some', Option.some.injEq] at hr
            by_cases hb : q.phase = Phase.building ∧ s.wedged q.engine = false
            · rw [if_pos hb] at hr; subst hr
              have : q.phase = Phase.done := h i q hq hsig
              rw [hb.1] at this; cases this
            · rw [if_neg hb] at hr; subst hr; exact h i q hq hsig
      · rw [submit_def, updReq_reqs, if_neg hi] at hr; exact h i r hr hsig
  | start i₀ =>
      by_cases hi : i = i₀
      · subst hi
        rw [start_def, updReq_reqs, if_pos rfl] at hr
        cases hq : s.reqs i with
        | none => rw [hq] at hr; cases hr
        | some q =>
            rw [hq] at hr; simp only [Option.map_some', Option.some.injEq] at hr
            by_cases hb : q.phase = Phase.queued ∧ depsSignaled s q = true
            · rw [if_pos hb] at hr; subst hr
              have : q.phase = Phase.done := h i q hq hsig
              rw [hb.1] at this; cases this
            · rw [if_neg hb] at hr; subst hr; exact h i q hq hsig
      · rw [start_def, updReq_reqs, if_neg hi] at hr; exact h i r hr hsig
  | finish i₀ =>
      by_cases hi : i = i₀
      · subst hi
        rw [finish_def, updReq_reqs, if_pos rfl] at hr
        cases hq : s.reqs i with
        | none => rw [hq] at hr; cases hr
        | some q =>
            rw [hq] at hr; simp only [Option.map_some', Option.some.injEq] at hr
            by_cases hb : q.phase = Phase.executing
            · rw [if_pos hb] at hr; subst hr; rfl
            · rw [if_neg hb] at hr; subst hr; exact h i q hq hsig
      · rw [finish_def, updReq_reqs, if_neg hi] at hr; exact h i r hr hsig
  | cancel i₀ =>
      by_cases hi : i = i₀
      · subst hi
        rw [cancel_def, updReq_reqs, if_pos rfl] at hr
        cases hq : s.reqs i with
        | none => rw [hq] at hr; cases hr
        | some q =>
            rw [hq] at hr; simp only [Option.map_some', Option.some.injEq] at hr
            by_cases hb : q.phase = Phase.queued
            · rw [if_pos hb] at hr; subst hr
              have : q.phase = Phase.done := h i q hq hsig
              rw [hb] at this; cases this
            · rw [if_neg hb] at hr; subst hr; exact h i q hq hsig
      · rw [cancel_def, updReq_reqs, if_neg hi] at hr; exact h i r hr hsig
  | wedge e => exact absurd rfl (ho e)

/-- Along a wedge-free trace, a signaled request has finished executing. -/
theorem sigImpliesDone_runFrom (s : Sys) (ops : List Op) (h : SigImpliesDone s)
    (hw : no_wedge ops = true) : SigImpliesDone (runFrom s ops) := by
  induction ops generalizing s with
  | nil => exact h
  | cons o os ih =>
      rw [no_wedge, List.all_cons, Bool.and_eq_true] at hw
      have ho : ∀ e, o ≠ Op.wedge e := by
        intro e he; subst he; simp at hw
      exact ih (stepOp s o) (sigImpliesDone_step s o h ho) hw.2

theorem sigImpliesDone_run (ops : List Op) (hw : no_wedge ops = true) :
    SigImpliesDone (run ops) := sigImpliesDone_runFrom init ops sigImpliesDone_init hw

/-- The current state is the first instant of every wait window. -/
theorem self_mem_window (s : Sys) (l : List Op) : s ∈ window s l := by
  cases l <;> simp [window]

/-- A property preserved by the window's operations holds at every observed
instant of the window. -/
theorem window_forall (P : Sys → Prop) (s : Sys) (l : List Op)
    (h : P s) (hstep : ∀ u o, o ∈ l → P u → P (stepOp u o)) :
    ∀ t ∈ window s l, P t := by
  induction l generalizing s with
  | nil =>
      intro t ht
      simp only [window, List.mem_singleton] at ht
      subst ht; exact h
  | cons o os ih =>
      intro t ht
      simp only [window, List.mem_cons] at ht
      rcases ht with ht | ht
      · subst ht; exact h
      · exact ih (stepOp s o) (hstep s o (List.mem_cons_self o os) h)
          (fun u o' ho' hu => hstep u o' (List.mem_cons_of_mem o ho') hu) t ht

/-- A wait over a window in which the fence is never signaled times out. -/
theorem wait_timedOut_of_never (s : Sys) (l : List Op) (i : Nat)
    (h : ∀ t ∈ window s l, is_completed t i = false) : wait s l i = WRes.timedOut := by
  unfold wait
  rw [if_neg]
  intro hc
  rw [List.any_eq_true] at hc
  obtain ⟨t, ht, hct⟩ := hc
  rw [h t ht] at hct
  cases hct

/-- A wait on an already-signaled fence returns Ready for any window. -/
theorem wait_ready_of_now (s : Sys) (l : List Op) (i : Nat)
    (h : is_completed s i = true) : wait s l i = WRes.ready := by
  unfold wait
  rw [if_pos]
  rw [List.any_eq_true]
  exact ⟨s, self_mem_window s l, h⟩

/-- The poll (timeout 0) returns Ready exactly when the fence is signaled now. -/
theorem wait_nil (s : Sys) (i : Nat) :
    wait s [] i = (if is_completed s i then WRes.ready else WRes.timedOut) := by
  simp [wait, window]

/-- Runs decompose along list append. -/
theorem runFrom_append (s : Sys) (l l' : List Op) :
    runFrom s (l ++ l') = runFrom (runFrom s l) l' := List.foldl_append stepOp s l l'

theorem run_append (l l' : List Op) : run (l ++ l') = runFrom (run l) l' :=
  runFrom_append init l l'

/-- An unsubmitted request is not completed. -/
theorem is_completed_eq_false_of_unsub (s : Sys) (i : Nat) (h : Unsub s i) :
    is_completed s i = false := by
  unfold is_completed
  cases hq : s.reqs i with
  | none => rfl
  | some q => exact (h q hq).2.1

/-- Submitting any request does not change any completion fence. -/
theorem is_completed_submit (s : Sys) (i j : Nat) :
    is_completed (stepOp s (Op.submit i)) j = is_completed s j := by
  unfold is_completed
  rw [submit_def, updReq_reqs]
  by_cases hj : j = i
  · subst hj
    rw [if_pos rfl]
    cases hq : s.reqs j with
    | none => rfl
    | some q =>
        simp only [Option.map_some']
        show (if q.phase = Phase.building ∧ s.wedged q.engine = false then
                { q with phase := Phase.queued, everSubmitted := true }
              else q).signaled = q.signaled
        split <;> rfl
  · rw [if_neg hj]

/-- Once the executor has begun executing a request, that fact is permanent. -/
theorem execution_started_step (s : Sys) (o : Op) (i : Nat) (hwf : WfIds s)
    (h : execution_started s i = true) : execution_started (stepOp s o) i = true := by
  unfold execution_started at h
  cases hq : s.reqs i with
  | none => rw [hq] at h; cases h
  | some q =>
      rw [hq] at h
      have hp : q.phase = Phase.executing ∨ q.phase = Phase.done := by
        by_contra hc
        have h' : (if q.phase = Phase.executing ∨ q.phase = Phase.done then true else false)
            = true := h
        rw [if_neg hc] at h'; cases h'
      have hd : i < s.nextId := by
        by_contra hc
        have := hwf i (by omega)
        rw [this] at hq; exact Option.noConfusion hq
      have hshow : ∀ q' : Req, (stepOp s o).reqs i = some q' →
          (q'.phase = Phase.executing ∨ q'.phase = Phase.done) →
          execution_started (stepOp s o) i = true := by
        intro q' hq' hp'
        unfold execution_started
        rw [hq']
        show (if q'.phase = Phase.executing ∨ q'.phase = Phase.done then true else false) = true
        rw [if_pos hp']
      cases o with
      | create e p =>
          have h1 : i ≠ s.nextId := by omega
          exact hshow q (by rw [create_reqs, if_neg h1, hq]) hp
      | await_dependency i₀ d =>
          by_cases hi : i = i₀
          · subst hi
            have hb : ¬(q.phase = Phase.building) := by
              intro hc; rcases hp with hp|hp <;> (rw [hc] at hp; cases hp)
            refine hshow q ?_ hp
            rw [await_def, updReq_reqs, if_pos rfl, hq]
            simp only [Option.map_some', if_neg hb]
          · exact hshow q (by rw [await_def, updReq_reqs, if_neg hi, hq]) hp
      | submit i₀ =>
          by_cases hi : i = i₀
          · subst hi
            have hb : ¬(q.phase = Phase.building ∧ s.wedged q.engine = false) := by
              intro hc; rcases hp with hp|hp <;> (rw [hc.1] at hp; cases hp)
            refine hshow q ?_ hp
            rw [submit_def, updReq_reqs, if_pos rfl, hq]
            simp only [Option.map_some', if_neg hb]
          · exact hshow q (by rw [submit_def, updReq_reqs, if_neg hi, hq]) hp
      | start i₀ =>
          by_cases hi : i = i₀
          · subst hi
            have hb : ¬(q.phase = Phase.queued ∧ depsSignaled s q = true) := by
              intro hc; rcases hp with hp|hp <;> (rw [hc.1] at hp; cases hp)
            refine hshow q ?_ hp
            rw [start_def, updReq_reqs, if_pos rfl, hq]
            simp only [Option.map_some', if_neg hb]
          · exact hshow q (by rw [start_def, updReq_reqs, if_neg hi, hq]) hp
      | finish i₀ =>
          by_cases hi : i = i₀
          · subst hi
            by_cases hb : q.phase = Phase.executing
            · have hrec : (stepOp s (Op.finish i)).reqs i = some { q with phase := Phase.done, signaled := true, sigCount := (if q.signaled then q.sigCount else q.sigCount + 1) } := by
                rw [finish_def, updReq_reqs, if_pos rfl, hq]
                simp only [Option.map_some', if_pos hb]
              exact hshow _ hrec (Or.inr rfl)
            · refine hshow q ?_ hp
              rw [finish_def, updReq_reqs, if_pos rfl, hq]
              simp only [Option.map_some', if_neg hb]
          · exact hshow q (by rw [finish_def, updReq_reqs, if_neg hi, hq]) hp
      | cancel i₀ =>
          by_cases hi : i = i₀
          · subst hi
            have hb : ¬(q.phase = Phase.queued) := by
              intro hc; rcases hp with hp|hp <;> (rw [hc] at hp; cases hp)
            refine hshow q ?_ hp
            rw [cancel_def, updReq_reqs, if_pos rfl, hq]
            simp only [Option.map_some', if_neg hb]
          · exact hshow q (by rw [cancel_def, updReq_reqs, if_neg hi, hq]) hp
      | wedge e =>
          by_cases hc : q.engine = e ∧ (q.phase = Phase.queued ∨ q.phase = Phase.executing)
          · refine hshow (abortSignal q) ?_ ?_
            · rw [wedge_reqs, hq]
              simp only [if_pos hc]
            · have : (abortSignal q).phase = q.phase := by
                unfold abortSignal; split <;> rfl
              rw [this]; exact hp
          · refine hshow q ?_ hp
            rw [wedge_reqs, hq]
            simp only [if_neg hc]

/-- `execution_started` persists across any further trace. -/
theorem execution_started_runFrom (s : Sys) (more : List Op) (i : Nat) (hinv : Inv s)
    (h : execution_started s i = true) : execution_started (runFrom s more) i = true := by
  induction more generalizing s with
  | nil => exact h
  | cons o os ih =>
      exact ih (stepOp s o) (inv_step s o hinv) (execution_started_step s o i hinv.1 h)

/-- Cancellation fails once execution has started. -/
theorem cancel_false_of_started (s : Sys) (i : Nat) (h : execution_started s i = true) :
    cancel_before_dispatch s i = false := by
  unfold execution_started at h
  unfold cancel_before_dispatch
  cases hq : s.reqs i with
  | none => rfl
  | some q =>
      rw [hq] at h
      have hp : q.phase = Phase.executing ∨ q.phase = Phase.done := by
        by_contra hc
        have h' : (if q.phase = Phase.executing ∨ q.phase = Phase.done then true else false)
            = true := h
        rw [if_neg hc] at h'; cases h'
      show (if q.phase = Phase.queued then true else false) = false
      rw [if_neg]
      intro hqq
      rcases hp with hp | hp <;> (rw [hqq] at hp; cases hp)

end Engine

/-
  Shallow embedding of the mt7603 MCU command channel,
  src/drivers/net/wireless/mediatek/mt76/mt7603/mcu.c.
-/

namespace Mcu

/-- Linux error number EINVAL (returned as -EINVAL). -/
def EINVAL : Int := 22

/-- Linux error number ETIMEDOUT (returned as -ETIMEDOUT). -/
def ETIMEDOUT : Int := 110

/-- Linux error number ENOMEM (returned as -ENOMEM). -/
def ENOMEM : Int := 12

/-- Modelled from the spec: the kernel tick rate HZ (jiffies per second); the
kernel configuration header is not under src/.  `3 * HZ` is three seconds worth
of jiffies whatever the configured value. -/
def HZ : Nat := 100

/-- Modelled from the spec: MT7603_WATCHDOG_TIMEOUT from mt7603.h, which is not
under src/.  mcu.c only stores it into dev->mcu_hang to mark the MCU hung; the
numeric value is irrelevant to the claims, only that it is nonzero. -/
def MT7603_WATCHDOG_TIMEOUT : Nat := 10

/-- Modelled from the spec: command and queue identifiers from mt7603/mcu.h,
which is not under src/.  mcu.c only compares and stores them; the claims do not
depend on the numeric values, only on the constants being distinct and the
MCU_CMD_ codes being positive (they are sent negated). -/
def MCU_CMD_TARGET_ADDRESS_LEN_REQ : Int := 1

/-- Modelled from the spec: see MCU_CMD_TARGET_ADDRESS_LEN_REQ. -/
def MCU_CMD_FW_START_REQ : Int := 2

/-- Modelled from the spec: see MCU_CMD_TARGET_ADDRESS_LEN_REQ. -/
def MCU_CMD_RESTART_DL_REQ : Int := 5

/-- Modelled from the spec: see MCU_CMD_TARGET_ADDRESS_LEN_REQ. -/
def MCU_CMD_FW_SCATTER : Int := 240

/-- Modelled from the spec: see MCU_CMD_TARGET_ADDRESS_LEN_REQ. -/
def MCU_CMD_EXT_CID : Int := 237

/-- Modelled from the spec: see MCU_CMD_TARGET_ADDRESS_LEN_REQ. -/
def MCU_Q_NA : Int := 0

/-- Modelled from the spec: see MCU_CMD_TARGET_ADDRESS_LEN_REQ. -/
def MCU_Q_SET : Int := 1

/-- Modelled from the spec: see MCU_CMD_TARGET_ADDRESS_LEN_REQ. -/
def MCU_PORT_QUEUE : Nat := 0

/-- Modelled from the spec: see MCU_CMD_TARGET_ADDRESS_LEN_REQ. -/
def MCU_PORT_QUEUE_FW : Nat := 1

/-- Modelled from the spec: see MCU_CMD_TARGET_ADDRESS_LEN_REQ. -/
def MCU_PKT_ID : Nat := 160

/-- Modelled from the spec: sizeof(struct mt7603_mcu_txd); the struct is
declared in a header not under src/.  Only used for the skb length field. -/
def mt7603_mcu_txd_size : Nat := 32

/-- The MCU TX descriptor struct mt7603_mcu_txd as filled in by
__mt7603_mcu_msg_send (mcu.c lines 32-52). -/
structure Txd where
  len : Nat
  pq_id : Nat
  pkt_type : Nat
  seq : Nat
  cid : Int
  ext_cid : Int
  ext_cid_ack : Bool
  set_query : Int
deriving DecidableEq

/-- An outgoing message buffer: only its payload length matters to the model. -/
structure Skb where
  len : Nat
deriving DecidableEq

/-- An MCU response as read by the wait loop: its struct mt7603_mcu_rxd sequence
number, and its arrival time in jiffies (used to model whether
mt76_mcu_get_response yields it before the absolute deadline `expires`). -/
structure Rxd where
  seq : Nat
  arrival : Nat
deriving DecidableEq

/-- The device state touched by mcu.c: the message sequence counter
mdev->mmio.mcu.msg_seq, the mcu_running flag, the mcu_hang marker, the
mmio.mcu.mutex (modelled as a held flag), the MT_TXQ_MCU transmit queue, the
pending response queue mmio.mcu.res_q, and a count of response buffers released
with dev_kfree_skb. -/
structure Dev where
  msg_seq : Nat
  mcu_running : Bool
  mcu_hang : Nat
  mcuMutex : Bool
  txq : List Txd
  res_q : List Rxd
  freed : Nat
deriving DecidableEq

/-- The sequence-number generator of __mt7603_mcu_msg_send (mcu.c lines 28-30):
  seq = ++mdev->mmio.mcu.msg_seq & 0xf;
  if (!seq)
          seq = ++mdev->mmio.mcu.msg_seq & 0xf;
The counter is a u8 (mt76.h, not under src/), so increments wrap modulo 256;
the result is the updated counter and the chosen sequence number. -/
def mcu_next_seq (c : Nat) : Nat × Nat :=
  if (c + 1) % 256 % 16 = 0 then
    (((c + 1) % 256 + 1) % 256, ((c + 1) % 256 + 1) % 256 % 16)
  else ((c + 1) % 256, (c + 1) % 256 % 16)

/-- Shallow embedding of __mt7603_mcu_msg_send (mcu.c lines 16-58).  A NULL skb
is `none`.  The TX descriptor is built exactly as in the source; the external
helper mt76_tx_queue_skb_raw (mt76 core, not under src/) is modelled as a
successful enqueue returning 0.  Returns (ret, new device state, the value
stored through wait_seq when the pointer is non-NULL). -/
def __mt7603_mcu_msg_send (dev : Dev) (skb : Option Skb) (cmd query : Int) :
    Int × Dev × Option Nat :=
  let hdrlen := if dev.mcu_running then mt7603_mcu_txd_size else 12
  match skb with
  | none => (-EINVAL, dev, none)
  | some sk =>
      let cs := mcu_next_seq dev.msg_seq
      let seq := cs.2
      let txd : Txd :=
        { len := sk.len + hdrlen
          pq_id := if cmd = -MCU_CMD_FW_SCATTER then MCU_PORT_QUEUE_FW else MCU_PORT_QUEUE
          pkt_type := MCU_PKT_ID
          seq := seq
          cid := if cmd < 0 then -cmd else MCU_CMD_EXT_CID
          ext_cid := if cmd < 0 then 0 else cmd
          ext_cid_ack := if cmd < 0 then false else (if query = MCU_Q_NA then false else true)
          set_query := query }
      (0, { dev with msg_seq := cs.1, txq := dev.txq ++ [txd] }, some seq)

/-- The response wait loop of mt7603_mcu_msg_send (mcu.c lines 75-96), recursing
over the pending response queue.  mt76_mcu_get_response (mt76 core, not under
src/) blocks for the next response up to the absolute deadline `expires`:
it is modelled as yielding the head response if it arrives by `expires` and
NULL (timeout) otherwise.  Every received buffer is freed with dev_kfree_skb,
matching or not; the loop stops on the first response whose rxd->seq equals the
awaited seq.  Returns (ret, remaining queue, number of freed buffers,
whether the timeout path marking the MCU hung was taken). -/
def mcu_wait_response (seq expires : Nat) : List Rxd → Int × List Rxd × Nat × Bool
  | [] => (-ETIMEDOUT, [], 0, true)
  | r :: rest =>
      if r.arrival ≤ expires then
        if r.seq = seq then (0, rest, 1, false)
        else
          let w := mcu_wait_response seq expires rest
          (w.1, w.2.1, w.2.2.1 + 1, w.2.2.2)
      else (-ETIMEDOUT, r :: rest, 0, true)

/-- Shallow embedding of mt7603_mcu_msg_send (mcu.c lines 60-102): take the MCU
mutex, send via __mt7603_mcu_msg_send, and on success wait for the response
whose sequence number matches, up to the absolute deadline
expires = jiffies + 3 * HZ computed before sending; on timeout set
dev->mcu_hang = MT7603_WATCHDOG_TIMEOUT and return -ETIMEDOUT; release the
mutex on every path. -/
def mt7603_mcu_msg_send (dev0 : Dev) (skb : Option Skb) (cmd query : Int)
    (jiffies : Nat) : Int × Dev :=
  let expires := jiffies + 3 * HZ
  let dev1 : Dev := { dev0 with mcuMutex := true }
  let res := __mt7603_mcu_msg_send dev1 skb cmd query
  let ret := res.1
  let dev2 := res.2.1
  if ret = 0 then
    let seq := res.2.2.getD 0
    let w := mcu_wait_response seq expires dev2.res_q
    let dev3 : Dev :=
      { dev2 with
        res_q := w.2.1,
        freed := dev2.freed + w.2.2.1,
        mcu_hang := if w.2.2.2 then MT7603_WATCHDOG_TIMEOUT else dev2.mcu_hang }
    (w.1, { dev3 with mcuMutex := false })
  else
    (ret, { dev2 with mcuMutex := false })

/-- Shallow embedding of mt7603_mcu_init_download (mcu.c lines 104-120).  The
allocation mt7603_mcu_msg_alloc is declared in a header not under src/; its
possibly-NULL result is the `alloc` parameter (none models allocation failure);
on success the payload is the 12-byte request struct. -/
def mt7603_mcu_init_download (dev : Dev) (alloc : Option Skb) (jiffies : Nat) :
    Int × Dev :=
  mt7603_mcu_msg_send dev alloc (-MCU_CMD_TARGET_ADDRESS_LEN_REQ) MCU_Q_NA jiffies

/-- Shallow embedding of mt7603_mcu_start_firmware (mcu.c lines 148-162); the
possibly-NULL result of mt7603_mcu_msg_alloc is the `alloc` parameter. -/
def mt7603_mcu_start_firmware (dev : Dev) (alloc : Option Skb) (jiffies : Nat) :
    Int × Dev :=
  mt7603_mcu_msg_send dev alloc (-MCU_CMD_FW_START_REQ) MCU_Q_NA jiffies

/-- Shallow embedding of mt7603_mcu_restart (mcu.c lines 164-171); the
possibly-NULL result of mt7603_mcu_msg_alloc(NULL, 0) is the `alloc` parameter. -/
def mt7603_mcu_restart (dev : Dev) (alloc : Option Skb) (jiffies : Nat) :
    Int × Dev :=
  mt7603_mcu_msg_send dev alloc (-MCU_CMD_RESTART_DL_REQ) MCU_Q_NA jiffies

/-- If no response arriving by the deadline matches the awaited sequence
number, the wait loop returns -ETIMEDOUT and takes the hang-marking path. -/
theorem mcu_wait_response_timeout (seq expires : Nat) (q : List Rxd)
    (h : ∀ rx ∈ q, rx.arrival ≤ expires → rx.seq ≠ seq) :
    (mcu_wait_response seq expires q).1 = -ETIMEDOUT ∧
    (mcu_wait_response seq expires q).2.2.2 = true := by
  induction q with
  | nil => exact ⟨rfl, rfl⟩
  | cons r rest ih =>
      by_cases ha : r.arrival ≤ expires
      · have hne : r.seq ≠ seq := h r (List.mem_cons_self r rest) ha
        have ih' := ih (fun rx hm hax => h rx (List.mem_cons_of_mem r hm) hax)
        simp only [mcu_wait_response, if_pos ha, if_neg hne]
        exact ih'
      · simp [mcu_wait_response, if_neg ha]

/-- The wait loop succeeds only when some response with the awaited sequence
number arrived by the deadline. -/
theorem mcu_wait_response_success (seq expires : Nat) (q : List Rxd)
    (h : (mcu_wait_response seq expires q).1 = 0) :
    ∃ rx ∈ q, rx.seq = seq ∧ rx.arrival ≤ expires := by
  induction q with
  | nil => norm_num [mcu_wait_response, ETIMEDOUT] at h
  | cons r rest ih =>
      by_cases ha : r.arrival ≤ expires
      · by_cases hs : r.seq = seq
        · exact ⟨r, List.mem_cons_self r rest, hs, ha⟩
        · simp only [mcu_wait_response, if_pos ha, if_neg hs] at h
          obtain ⟨rx, hm, hx⟩ := ih h
          exact ⟨rx, List.mem_cons_of_mem r hm, hx⟩
      · simp only [mcu_wait_response, if_neg ha] at h
        norm_num [ETIMEDOUT] at h

/-- Every response dequeued by the wait loop is freed: freed count plus
remaining queue length equals the original queue length. -/
theorem mcu_wait_response_freed (seq expires : Nat) (q : List Rxd) :
    (mcu_wait_response seq expires q).2.2.1 + (mcu_wait_response seq expires q).2.1.length
      = q.length := by
  induction q with
  | nil => rfl
  | cons r rest ih =>
      by_cases ha : r.arrival ≤ expires
      · by_cases hs : r.seq = seq
        · simp only [mcu_wait_response, if_pos ha, if_pos hs, List.length_cons]
          omega
        · simp only [mcu_wait_response, if_pos ha, if_neg hs, List.length_cons]
          omega
      · simp only [mcu_wait_response, if_neg ha, List.length_cons]
        omega

end Mcu

/-
  The claims.
-/

/-- C1: for every newly created, not-yet-submitted Request, wait with timeout 0
(the empty wait window) and wait with any positive timeout (any wait window of
further operations, none of which submits the request) return TimedOut — they
never block forever and never return Ready — and is_completed returns false,
until submit is called on that Request. -/
theorem claim_C1_unsubmitted_never_ready (ops0 ops1 : List Engine.Op) (i : Nat)
    (h0 : Engine.Op.submit i ∉ ops0) (h1 : Engine.Op.submit i ∉ ops1) :
    Engine.is_completed (Engine.run ops0) i = false ∧
    Engine.wait (Engine.run ops0) ops1 i = Engine.WRes.timedOut := by
  have hu : Engine.Unsub (Engine.run ops0) i := Engine.unsub_run ops0 i h0
  have hic : ∀ t ∈ Engine.window (Engine.run ops0) ops1,
      Engine.is_completed t i = false := by
    intro t ht
    have hP := Engine.window_forall (fun u => Engine.Unsub u i) _ ops1 hu
      (fun u o ho hP => Engine.unsub_step u o i hP (fun he => h1 (he ▸ ho))) t ht
    exact Engine.is_completed_eq_false_of_unsub t i hP
  exact ⟨hic (Engine.run ops0) (Engine.self_mem_window _ _),
    Engine.wait_timedOut_of_never _ _ _ hic⟩

/-- C1 witness: a concrete request created but never submitted polls TimedOut
and reports not completed while the executor performs unrelated operations. -/
theorem claim_C1_witness :
    Engine.is_completed (Engine.run [Engine.Op.create 0 0]) 0 = false ∧
    Engine.wait (Engine.run [Engine.Op.create 0 0]) [Engine.Op.start 0] 0 =
      Engine.WRes.timedOut :=
  claim_C1_unsubmitted_never_ready [Engine.Op.create 0 0] [Engine.Op.start 0] 0
    (by decide) (by decide)

/-- C2 counterexample: a request is created, submitted, and then its executor is
wedged.  The trace contains no finish operation and the request never reaches
phase done — the Executor never finished executing its work — yet is_completed
is already true (the fence was force-signaled with Aborted), refuting the claim
that is_completed stays false at every instant until execution finishes. -/
theorem claim_C2_counterexample :
    Engine.Op.finish 0 ∉ [Engine.Op.create 0 0, Engine.Op.submit 0, Engine.Op.wedge 0] ∧
    Engine.phase_of (Engine.run [Engine.Op.create 0 0, Engine.Op.submit 0, Engine.Op.wedge 0]) 0
      ≠ some Engine.Phase.done ∧
    Engine.is_completed (Engine.run [Engine.Op.create 0 0, Engine.Op.submit 0, Engine.Op.wedge 0]) 0
      = true :=
  ⟨by decide, by decide, by decide⟩

/-- C2 (amended): for every Request, a signaled completion means the Executor
finished executing its work (phase done) or the Request was force-aborted by
its Executor wedging (fence error Aborted) — so in the absence of wedging,
is_completed stays false until execution actually finishes; and in particular
immediately after submit returns (on every engine), is_completed is still
false. -/
theorem claim_C2_no_premature_signal_amended :
    (∀ ops i r, (Engine.run ops).reqs i = some r → r.signaled = true →
        r.phase = Engine.Phase.done ∨ r.err = some Engine.Err.aborted) ∧
    (∀ ops i, Engine.Op.submit i ∉ ops →
        Engine.is_completed (Engine.run (ops ++ [Engine.Op.submit i])) i = false) := by
  constructor
  · intro ops i r hr hsig
    exact ((Engine.inv_run ops).2 i r hr).sig_src hsig
  · intro ops i hs
    rw [Engine.run_append]
    show Engine.is_completed (Engine.stepOp (Engine.run ops) (Engine.Op.submit i)) i = false
    rw [Engine.is_completed_submit]
    exact Engine.is_completed_eq_false_of_unsub _ i (Engine.unsub_run ops i hs)

/-- C2 witness: a normally executed request is signaled with phase done, and a
request polled immediately after its first submit is not completed. -/
theorem claim_C2_witness :
    ((⟨0, 0, [], Engine.Phase.done, true, none, 1, true⟩ : Engine.Req).phase =
        Engine.Phase.done ∨
      (⟨0, 0, [], Engine.Phase.done, true, none, 1, true⟩ : Engine.Req).err =
        some Engine.Err.aborted) ∧
    Engine.is_completed (Engine.run ([Engine.Op.create 0 0] ++ [Engine.Op.submit 0])) 0 = false :=
  ⟨claim_C2_no_premature_signal_amended.1
      [Engine.Op.create 0 0, Engine.Op.submit 0, Engine.Op.start 0, Engine.Op.finish 0] 0
      ⟨0, 0, [], Engine.Phase.done, true, none, 1, true⟩ (by decide) (by decide),
   claim_C2_no_premature_signal_amended.2 [Engine.Op.create 0 0] 0 (by decide)⟩

/-- C3 counterexample: request 1 awaits request 0's completion fence via
await_dependency; both are submitted to distinct executors with no other
ordering; wedging executor 1 force-signals request 1's fence with Aborted, so
request 1 is observed completed while request 0 is not completed — refuting the
claim as stated. -/
theorem claim_C3_counterexample :
    Engine.deps_of (Engine.run [Engine.Op.create 0 0, Engine.Op.create 1 0,
      Engine.Op.await_dependency 1 0, Engine.Op.submit 0, Engine.Op.submit 1,
      Engine.Op.wedge 1]) 1 = [0] ∧
    Engine.is_completed (Engine.run [Engine.Op.create 0 0, Engine.Op.create 1 0,
      Engine.Op.await_dependency 1 0, Engine.Op.submit 0, Engine.Op.submit 1,
      Engine.Op.wedge 1]) 1 = true ∧
    Engine.is_completed (Engine.run [Engine.Op.create 0 0, Engine.Op.create 1 0,
      Engine.Op.await_dependency 1 0, Engine.Op.submit 0, Engine.Op.submit 1,
      Engine.Op.wedge 1]) 0 = false :=
  ⟨by decide, by decide, by decide⟩

/-- C3 (amended): if Request B has awaited Request A's completion fence as a
dependency, then at no observable instant is B completed without error (fence
signaled with no error code) while A is not completed — even on distinct
independent Executors; the only exception is B's fence being force-signaled
with the Aborted error when B's Executor wedges. -/
theorem claim_C3_sequential_chaining_amended (ops : List Engine.Op) (i j : Nat)
    (rB : Engine.Req) (hj : (Engine.run ops).reqs j = some rB) (hdep : i ∈ rB.deps)
    (hsig : rB.signaled = true) (herr : rB.err = none) :
    Engine.is_completed (Engine.run ops) i = true := by
  obtain ⟨hwf, hreq⟩ := Engine.inv_run ops
  obtain ⟨s1, s2, s3, s4, s5, s6⟩ := hreq j rB hj
  rcases s2 hsig with hd | ha
  · have hds := s4 (Or.inr hd)
    unfold Engine.depsSignaled at hds
    rw [List.all_eq_true] at hds
    exact hds i hdep
  · rw [herr] at ha; cases ha

/-- C3 witness: with request 1 depending on request 0 and both executed
normally across two executors, request 1 being completed without error entails
request 0 is completed. -/
theorem claim_C3_witness :
    Engine.is_completed (Engine.run [Engine.Op.create 0 0, Engine.Op.create 1 0,
      Engine.Op.await_dependency 1 0, Engine.Op.submit 0, Engine.Op.start 0,
      Engine.Op.finish 0, Engine.Op.submit 1, Engine.Op.start 1, Engine.Op.finish 1]) 0
      = true :=
  claim_C3_sequential_chaining_amended
    [Engine.Op.create 0 0, Engine.Op.create 1 0, Engine.Op.await_dependency 1 0,
     Engine.Op.submit 0, Engine.Op.start 0, Engine.Op.finish 0, Engine.Op.submit 1,
     Engine.Op.start 1, Engine.Op.finish 1] 0 1
    ⟨1, 0, [0], Engine.Phase.done, true, none, 1, true⟩
    (by decide) (by decide) (by decide) (by decide)

/-- C4: cancel_before_dispatch(request) returns true only if the Executor has
not begun executing the request (the request is still queued), and returns
false — forever — once execution has started; and in the rewind scenario, where
long-running Request A is successfully cancelled before dispatch, higher
priority Request B is then submitted, A is re-dispatched behind it, and the
Executor finishes B without ever finishing A (and without wedging), B is
completed while A is still not completed. -/
theorem claim_C4_rewind :
    (∀ s i, Engine.cancel_before_dispatch s i = true →
        Engine.phase_of s i = some Engine.Phase.queued ∧
        Engine.execution_started s i = false) ∧
    (∀ ops more i, Engine.execution_started (Engine.run ops) i = true →
        Engine.cancel_before_dispatch (Engine.runFrom (Engine.run ops) more) i = false) ∧
    (∀ l m i j,
        Engine.cancel_before_dispatch (Engine.run l) i = true →
        Engine.Op.submit i ∈ m →
        Engine.Op.finish i ∉ l ∧ Engine.Op.finish i ∉ m →
        Engine.no_wedge (l ++ Engine.Op.cancel i :: m) = true →
        Engine.prio_of (Engine.run (l ++ Engine.Op.cancel i :: m)) i <
          Engine.prio_of (Engine.run (l ++ Engine.Op.cancel i :: m)) j →
        Engine.phase_of (Engine.run (l ++ Engine.Op.cancel i :: m)) j =
          some Engine.Phase.done →
        Engine.is_completed (Engine.run (l ++ Engine.Op.cancel i :: m)) j = true ∧
        Engine.is_completed (Engine.run (l ++ Engine.Op.cancel i :: m)) i = false) := by
  refine ⟨?_, ?_, ?_⟩
  · intro s i h
    unfold Engine.cancel_before_dispatch at h
    cases hq : s.reqs i with
    | none => rw [hq] at h; cases h
    | some r =>
        rw [hq] at h
        by_cases hp : r.phase = Engine.Phase.queued
        · constructor
          · unfold Engine.phase_of; rw [hq]
            simp [hp]
          · unfold Engine.execution_started; rw [hq]
            show (if r.phase = Engine.Phase.executing ∨ r.phase = Engine.Phase.done
                then true else false) = false
            rw [if_neg]
            intro hc
            rcases hc with hc | hc <;> (rw [hp] at hc; cases hc)
        · have h' : (if r.phase = Engine.Phase.queued then true else false) = true := h
          rw [if_neg hp] at h'; cases h'
  · intro ops more i h
    exact Engine.cancel_false_of_started _ i
      (Engine.execution_started_runFrom (Engine.run ops) more i (Engine.inv_run ops) h)
  · intro l m i j hcan hsub hfin hnw hprio hdone
    constructor
    · obtain ⟨hwf, hreq⟩ := Engine.inv_run (l ++ Engine.Op.cancel i :: m)
      unfold Engine.phase_of at hdone
      cases hq : (Engine.run (l ++ Engine.Op.cancel i :: m)).reqs j with
      | none => rw [hq] at hdone; cases hdone
      | some rB =>
          rw [hq] at hdone
          simp only [Option.map_some', Option.some.injEq] at hdone
          have hsig := (hreq j rB hq).done_sig hdone
          unfold Engine.is_completed; rw [hq]; exact hsig
    · have hfin' : Engine.Op.finish i ∉ l ++ Engine.Op.cancel i :: m := by
        intro hmem
        rw [List.mem_append, List.mem_cons] at hmem
        rcases hmem with h' | h'
        · exact hfin.1 h'
        rcases h' with h' | h'
        · exact Engine.Op.noConfusion h'
        · exact hfin.2 h'
      have hnd : Engine.NotDone (Engine.run (l ++ Engine.Op.cancel i :: m)) i :=
        Engine.notDone_run _ i hfin'
      have hsd : Engine.SigImpliesDone (Engine.run (l ++ Engine.Op.cancel i :: m)) :=
        Engine.sigImpliesDone_run _ hnw
      cases hq : (Engine.run (l ++ Engine.Op.cancel i :: m)).reqs i with
      | none => unfold Engine.is_completed; rw [hq]
      | some rA =>
          unfold Engine.is_completed; rw [hq]
          show rA.signaled = false
          cases hs : rA.signaled with
          | false => rfl
          | true => exact absurd (hsd i rA hq hs) (hnd rA hq)

/-- C4 witness: the concrete rewind scenario — request 0 (priority 0, slow) is
submitted, cancelled while still queued, request 1 (priority 5) is submitted,
request 0 is re-dispatched behind it, and the executor runs request 1 to
completion: cancellation reported the pre-dispatch state truthfully, cancel
fails on the executed request afterwards, and request 1 is completed while
request 0 is not. -/
theorem claim_C4_witness :
    (Engine.phase_of (Engine.run [Engine.Op.create 0 0, Engine.Op.create 0 5,
        Engine.Op.submit 0]) 0 = some Engine.Phase.queued ∧
      Engine.execution_started (Engine.run [Engine.Op.create 0 0, Engine.Op.create 0 5,
        Engine.Op.submit 0]) 0 = false) ∧
    Engine.cancel_before_dispatch (Engine.runFrom (Engine.run
      ([Engine.Op.create 0 0, Engine.Op.create 0 5, Engine.Op.submit 0] ++
        Engine.Op.cancel 0 :: [Engine.Op.submit 1, Engine.Op.submit 0,
          Engine.Op.start 1, Engine.Op.finish 1])) []) 1 = false ∧
    (Engine.is_completed (Engine.run ([Engine.Op.create 0 0, Engine.Op.create 0 5,
        Engine.Op.submit 0] ++ Engine.Op.cancel 0 :: [Engine.Op.submit 1,
          Engine.Op.submit 0, Engine.Op.start 1, Engine.Op.finish 1])) 1 = true ∧
      Engine.is_completed (Engine.run ([Engine.Op.create 0 0, Engine.Op.create 0 5,
        Engine.Op.submit 0] ++ Engine.Op.cancel 0 :: [Engine.Op.submit 1,
          Engine.Op.submit 0, Engine.Op.start 1, Engine.Op.finish 1])) 0 = false) :=
  ⟨claim_C4_rewind.1 _ 0 (by decide),
   claim_C4_rewind.2.1
     ([Engine.Op.create 0 0, Engine.Op.create 0 5, Engine.Op.submit 0] ++
       Engine.Op.cancel 0 :: [Engine.Op.submit 1, Engine.Op.submit 0,
         Engine.Op.start 1, Engine.Op.finish 1]) [] 1 (by decide),
   claim_C4_rewind.2.2
     [Engine.Op.create 0 0, Engine.Op.create 0 5, Engine.Op.submit 0]
     [Engine.Op.submit 1, Engine.Op.submit 0, Engine.Op.start 1, Engine.Op.finish 1]
     0 1 (by decide) (by decide) ⟨by decide, by decide⟩ (by decide) (by decide) (by decide)⟩

/-- C5: when an Executor transitions to the Wedged state, every outstanding
fence on that Executor (a request submitted to it — queued or executing — whose
fence is not yet signaled) becomes signaled with the Aborted error by the wedge
transition itself (immediately, hence within a bounded time), so every blocked
waiter is released: any wait on it, however long its window, returns Ready. -/
theorem claim_C5_wedge_releases_waiters (s : Engine.Sys) (i e : Nat) (r : Engine.Req)
    (hr : s.reqs i = some r) (he : r.engine = e)
    (hp : r.phase = Engine.Phase.queued ∨ r.phase = Engine.Phase.executing)
    (hs : r.signaled = false) :
    Engine.is_completed (Engine.stepOp s (Engine.Op.wedge e)) i = true ∧
    Engine.err_of (Engine.stepOp s (Engine.Op.wedge e)) i = some Engine.Err.aborted ∧
    ∀ during, Engine.wait (Engine.stepOp s (Engine.Op.wedge e)) during i =
      Engine.WRes.ready := by
  have hg : r.engine = e ∧
      (r.phase = Engine.Phase.queued ∨ r.phase = Engine.Phase.executing) := ⟨he, hp⟩
  have habs : Engine.abortSignal r =
      { r with signaled := true, err := some Engine.Err.aborted,
               sigCount := r.sigCount + 1 } := by
    unfold Engine.abortSignal
    rw [hs]
    rfl
  have hr' : (Engine.stepOp s (Engine.Op.wedge e)).reqs i =
      some (Engine.abortSignal r) := by
    rw [Engine.wedge_reqs, hr]
    simp only [if_pos hg]
  have hcomp : Engine.is_completed (Engine.stepOp s (Engine.Op.wedge e)) i = true := by
    unfold Engine.is_completed
    rw [hr', habs]
  refine ⟨hcomp, ?_, ?_⟩
  · unfold Engine.err_of
    rw [hr', habs]
  · intro during
    exact Engine.wait_ready_of_now _ during i hcomp

/-- C5 witness: wedging executor 0 immediately signals its one outstanding
queued request with Aborted and makes its fence report completed. -/
theorem claim_C5_witness :
    Engine.is_completed (Engine.stepOp
      (Engine.run [Engine.Op.create 0 0, Engine.Op.submit 0]) (Engine.Op.wedge 0)) 0 = true ∧
    Engine.err_of (Engine.stepOp
      (Engine.run [Engine.Op.create 0 0, Engine.Op.submit 0]) (Engine.Op.wedge 0)) 0 =
      some Engine.Err.aborted := by
  have h := claim_C5_wedge_releases_waiters
    (Engine.run [Engine.Op.create 0 0, Engine.Op.submit 0]) 0 0
    ⟨0, 0, [], Engine.Phase.queued, false, none, 0, true⟩
    (by decide) (by decide) (by decide) (by decide)
  exact ⟨h.1, h.2.1⟩

/-- C6: for every fence and every state, wait with timeout 0 (the empty wait
window) is a pure non-blocking poll: it returns Ready exactly when the fence is
already signaled and TimedOut exactly when it is not — its result is determined
by the current instant alone, regardless of fence state. -/
theorem claim_C6_poll_semantics (s : Engine.Sys) (i : Nat) :
    (Engine.wait s [] i = Engine.WRes.ready ↔ Engine.is_completed s i = true) ∧
    (Engine.wait s [] i = Engine.WRes.timedOut ↔ Engine.is_completed s i = false) := by
  rw [Engine.wait_nil]
  by_cases h : Engine.is_completed s i = true
  · rw [if_pos h]
    refine ⟨⟨fun _ => h, fun _ => rfl⟩, ⟨fun hc => ?_, fun hc => ?_⟩⟩
    · cases hc
    · rw [h] at hc; cases hc
  · have h' : Engine.is_completed s i = false := by
      cases hv : Engine.is_completed s i
      · rfl
      · exact absurd hv h
    rw [if_neg h]
    refine ⟨⟨fun hc => ?_, fun hc => ?_⟩, ⟨fun _ => h', fun _ => rfl⟩⟩
    · cases hc
    · rw [h'] at hc; cases hc

/-- C7: for every interleaving of producer, executor and wedge operations (any
operation sequence), every request that ends up finished — or that was
submitted to an executor that wedged while the request was outstanding — has
its fence signaled, signaled exactly once (signal count 1: no lost wakeup
leaves it unsignaled and no race double-signals it, even when a wedge races the
executor's completion path), and any waiter polling it is released with Ready. -/
theorem claim_C7_breadcrumb_exactly_once (ops : List Engine.Op) (i : Nat)
    (r : Engine.Req) (hr : (Engine.run ops).reqs i = some r)
    (hend : r.phase = Engine.Phase.done ∨
      ((Engine.run ops).wedged r.engine = true ∧
        (r.phase = Engine.Phase.queued ∨ r.phase = Engine.Phase.executing))) :
    r.signaled = true ∧ r.sigCount = 1 ∧
    Engine.wait (Engine.run ops) [] i = Engine.WRes.ready := by
  obtain ⟨hwf, hreq⟩ := Engine.inv_run ops
  obtain ⟨s1, s2, s3, s4, s5, s6⟩ := hreq i r hr
  have hsig : r.signaled = true := by
    rcases hend with hd | ⟨hw, hp⟩
    · exact s3 hd
    · exact s5 hw hp
  refine ⟨hsig, ?_, ?_⟩
  · rw [s1, if_pos hsig]
  · apply Engine.wait_ready_of_now
    unfold Engine.is_completed
    rw [hr]
    exact hsig
/-- C7 witness: a request finished by the executor after a wedge raced its
engine while it was executing is signaled exactly once. -/
theorem claim_C7_witness :
    (⟨0, 0, [], Engine.Phase.done, true, some Engine.Err.aborted, 1, true⟩
        : Engine.Req).signaled = true ∧
    (⟨0, 0, [], Engine.Phase.done, true, some Engine.Err.aborted, 1, true⟩
        : Engine.Req).sigCount = 1 ∧
    Engine.wait (Engine.run [Engine.Op.create 0 0, Engine.Op.submit 0,
      Engine.Op.start 0, Engine.Op.wedge 0, Engine.Op.finish 0]) [] 0 =
      Engine.WRes.ready :=
  claim_C7_breadcrumb_exactly_once
    [Engine.Op.create 0 0, Engine.Op.submit 0, Engine.Op.start 0, Engine.Op.wedge 0,
     Engine.Op.finish 0] 0
    ⟨0, 0, [], Engine.Phase.done, true, some Engine.Err.aborted, 1, true⟩
    (by decide) (by decide)

/-- C8: the synchronous MCU command channel serializes each command under the
single MCU mutex, releasing it on every return path; it waits for a response
whose sequence number matches the sent command's sequence number up to the
fixed absolute deadline jiffies + 3 * HZ (three seconds) computed before
sending; every dequeued response — matching or not — is freed (non-matching
ones are discarded and the wait continues); success occurs only when a
matching response arrived by the deadline; and when no matching response
arrives by the deadline the call returns -ETIMEDOUT and marks the MCU as hung
(mcu_hang = MT7603_WATCHDOG_TIMEOUT). -/
theorem claim_C8_mcu_sync_command (dev : Mcu.Dev) (sk : Mcu.Skb) (cmd query : Int)
    (jiffies : Nat) :
    (Mcu.mt7603_mcu_msg_send dev (some sk) cmd query jiffies).2.mcuMutex = false ∧
    (Mcu.mt7603_mcu_msg_send dev (some sk) cmd query jiffies).2.freed +
      (Mcu.mt7603_mcu_msg_send dev (some sk) cmd query jiffies).2.res_q.length =
      dev.freed + dev.res_q.length ∧
    ((Mcu.mt7603_mcu_msg_send dev (some sk) cmd query jiffies).1 = 0 →
      ∃ rx ∈ dev.res_q, rx.seq = (Mcu.mcu_next_seq dev.msg_seq).2 ∧
        rx.arrival ≤ jiffies + 3 * Mcu.HZ) ∧
    ((∀ rx ∈ dev.res_q, rx.arrival ≤ jiffies + 3 * Mcu.HZ →
        rx.seq ≠ (Mcu.mcu_next_seq dev.msg_seq).2) →
      (Mcu.mt7603_mcu_msg_send dev (some sk) cmd query jiffies).1 = -Mcu.ETIMEDOUT ∧
      (Mcu.mt7603_mcu_msg_send dev (some sk) cmd query jiffies).2.mcu_hang =
        Mcu.MT7603_WATCHDOG_TIMEOUT) := by
  have h1 : (Mcu.mt7603_mcu_msg_send dev (some sk) cmd query jiffies).2.mcuMutex = false := rfl
  have h2 : (Mcu.mt7603_mcu_msg_send dev (some sk) cmd query jiffies).2.freed =
      dev.freed + (Mcu.mcu_wait_response (Mcu.mcu_next_seq dev.msg_seq).2
        (jiffies + 3 * Mcu.HZ) dev.res_q).2.2.1 := rfl
  have h3 : (Mcu.mt7603_mcu_msg_send dev (some sk) cmd query jiffies).2.res_q =
      (Mcu.mcu_wait_response (Mcu.mcu_next_seq dev.msg_seq).2
        (jiffies + 3 * Mcu.HZ) dev.res_q).2.1 := rfl
  have h4 : (Mcu.mt7603_mcu_msg_send dev (some sk) cmd query jiffies).1 =
      (Mcu.mcu_wait_response (Mcu.mcu_next_seq dev.msg_seq).2
        (jiffies + 3 * Mcu.HZ) dev.res_q).1 := rfl
  have h5 : (Mcu.mt7603_mcu_msg_send dev (some sk) cmd query jiffies).2.mcu_hang =
      (if (Mcu.mcu_wait_response (Mcu.mcu_next_seq dev.msg_seq).2
          (jiffies + 3 * Mcu.HZ) dev.res_q).2.2.2 then Mcu.MT7603_WATCHDOG_TIMEOUT
        else dev.mcu_hang) := rfl
  refine ⟨h1, ?_, ?_, ?_⟩
  · rw [h2, h3]
    have hf := Mcu.mcu_wait_response_freed (Mcu.mcu_next_seq dev.msg_seq).2
      (jiffies + 3 * Mcu.HZ) dev.res_q
    omega
  · intro h0
    rw [h4] at h0
    exact Mcu.mcu_wait_response_success _ _ _ h0
  · intro hno
    have ht := Mcu.mcu_wait_response_timeout (Mcu.mcu_next_seq dev.msg_seq).2
      (jiffies + 3 * Mcu.HZ) dev.res_q hno
    refine ⟨?_, ?_⟩
    · rw [h4]; exact ht.1
    · rw [h5, if_pos ht.2]

/-- C8 witness: with one pending in-time response carrying a non-matching
sequence number, the send times out with -ETIMEDOUT and marks the MCU hung. -/
theorem claim_C8_witness :
    (Mcu.mt7603_mcu_msg_send ⟨0, false, 0, false, [], [⟨5, 0⟩], 0⟩
      (some ⟨8⟩) 1 0 0).1 = -Mcu.ETIMEDOUT ∧
    (Mcu.mt7603_mcu_msg_send ⟨0, false, 0, false, [], [⟨5, 0⟩], 0⟩
      (some ⟨8⟩) 1 0 0).2.mcu_hang = Mcu.MT7603_WATCHDOG_TIMEOUT :=
  (claim_C8_mcu_sync_command ⟨0, false, 0, false, [], [⟨5, 0⟩], 0⟩ ⟨8⟩ 1 0 0).2.2.2
    (by decide)

/-- C9: every sequence number assigned by __mt7603_mcu_msg_send — the value the
updated counter yields and the value reported through wait_seq — lies in the
range 1..15: the incremented counter is truncated to 4 bits and a result of 0
is skipped by incrementing again, so sequence numbers wrap modulo 16 (never
exceeding 15) rather than increasing without bound. -/
theorem claim_C9_seq_range (c : Nat) (dev : Mcu.Dev) (sk : Mcu.Skb) (cmd query : Int) :
    (1 ≤ (Mcu.mcu_next_seq c).2 ∧ (Mcu.mcu_next_seq c).2 ≤ 15) ∧
    (Mcu.__mt7603_mcu_msg_send dev (some sk) cmd query).2.2 =
      some (Mcu.mcu_next_seq dev.msg_seq).2 ∧
    (Mcu.__mt7603_mcu_msg_send dev (some sk) cmd query).2.1.msg_seq =
      (Mcu.mcu_next_seq dev.msg_seq).1 := by
  refine ⟨?_, rfl, rfl⟩
  have hch : (Mcu.mcu_next_seq c).2 =
      (if (c + 1) % 256 % 16 = 0 then ((c + 1) % 256 + 1) % 256 % 16
       else (c + 1) % 256 % 16) := by
    unfold Mcu.mcu_next_seq
    split <;> rfl
  rw [hch]
  split <;> omega

/-- C10: a NULL skb (failed allocation) makes __mt7603_mcu_msg_send return
-EINVAL with the device state untouched — no sequence number assigned, no
descriptor queued — and every caller forwarding a possibly-NULL allocation
(mt7603_mcu_msg_send itself, init_download, start_firmware, restart) returns a
synchronous -EINVAL with no message transmitted, no response consumed and the
mutex released. -/
theorem claim_C10_null_skb_einval (dev : Mcu.Dev) (cmd query : Int) (jiffies : Nat) :
    Mcu.__mt7603_mcu_msg_send dev none cmd query = (-Mcu.EINVAL, dev, none) ∧
    Mcu.mt7603_mcu_msg_send dev none cmd query jiffies =
      (-Mcu.EINVAL, { dev with mcuMutex := false }) ∧
    Mcu.mt7603_mcu_init_download dev none jiffies =
      (-Mcu.EINVAL, { dev with mcuMutex := false }) ∧
    Mcu.mt7603_mcu_start_firmware dev none jiffies =
      (-Mcu.EINVAL, { dev with mcuMutex := false }) ∧
    Mcu.mt7603_mcu_restart dev none jiffies =
      (-Mcu.EINVAL, { dev with mcuMutex := false }) :=
  ⟨rfl, rfl, rfl, rfl, rfl⟩
